import Mathlib

/-!
Verification development for the `locker` / `async-locker` crates.

The central object is `WakerSet` (src/async-locker/src/waker_set.rs): a
registry of wake handles stored in a slab of `Option Waker` entries,
together with a count `notifiable` of entries that still hold a live
handle.  On every release of the internal lock a two-bit summary
(`NOTIFIED`, `NOTIFIABLE`) is published in the lock's tag word.

Wakers are modelled as numeric identifiers; invoking a waker is recorded
by appending its identifier to a list of woken wakers, so "the handle was
invoked exactly once" becomes a statement about that list.
-/

namespace LockerModel

/-- A wake handle, identified by a number.  `wake` is modelled by
recording the identifier in the list of woken wakers. -/
abbrev Waker := Nat

/-- Set when there is at least one entry that has already been notified
(waker_set.rs:17, `const NOTIFIED: u8 = 0b01`). -/
def NOTIFIED : Nat := 1

/-- Set when there is at least one notifiable entry
(waker_set.rs:20, `const NOTIFIABLE: u8 = 0b10`). -/
def NOTIFIABLE : Nat := 2

/-- A slot of the keyed waker store: `none` is a vacant slot, `some v`
is an occupied slot storing `v : Option Waker` — `some w` means the
entry still holds a live wake handle, `none` means the handle was
already taken by a notifier (waker_set.rs:24-31). -/
abbrev Slot := Option (Option Waker)

/-- Modelled from the spec: `crate::slab::{Index, Slab}` backing
`WakerSet` is not part of the sources.  Spec §4.4: a capacity-managed
keyed store; `insert` allocates a fresh key, reusing a previously freed
key where possible; iteration yields occupied entries in ascending key
order.  Keys are indices into the slot list. -/
structure Slab where
  slots : List Slot
deriving DecidableEq

def Slab.new : Slab := ⟨[]⟩

/-- Index of the first vacant slot, if any (the free-list reuse of
spec §4.4: "reusing a previously freed key where possible"). -/
def findVacant : List Slot → Option Nat
  | [] => none
  | none :: _ => some 0
  | some _ :: rest => (findVacant rest).map (· + 1)

/-- Modelled from the spec (§4.4): `insert(value) -> key` allocates a
fresh key, reusing a previously freed key where possible, and stores
`value`. -/
def Slab.insert (s : Slab) (v : Option Waker) : Slab × Nat :=
  match findVacant s.slots with
  | some i => (⟨s.slots.set i (some v)⟩, i)
  | none => (⟨s.slots ++ [some v]⟩, s.slots.length)

/-- Modelled from the spec: `remove(key)` deallocates an occupied key
and evaluates, as used by waker_set.rs, to the wake handle stored there
(`none` when the handle was already taken by a notifier, or when the
key was already removed).  This matches §3 "`None` at a given key means
this entry was already notified" and §4.5 "`remove` decrements
`notifiable` only if the entry still held a live handle". -/
def Slab.remove (s : Slab) (k : Nat) : Slab × Option Waker :=
  match s.slots[k]? with
  | some (some v) => (⟨s.slots.set k none⟩, v)
  | _ => (s, none)

/-- Number of occupied slots: the slab's `len()`, used by `Lock::drop`
(waker_set.rs:192). -/
def countOcc : List Slot → Nat
  | [] => 0
  | some _ :: rest => countOcc rest + 1
  | none :: rest => countOcc rest

def Slab.len (s : Slab) : Nat := countOcc s.slots

/-- Number of occupied slots still holding a live wake handle. -/
def countLive : List Slot → Nat
  | [] => 0
  | some (some _) :: rest => countLive rest + 1
  | _ :: rest => countLive rest

/-- Number of occupied slots whose handle was already taken
(notified but not yet removed). -/
def countTaken : List Slot → Nat
  | [] => 0
  | some none :: rest => countTaken rest + 1
  | _ :: rest => countTaken rest

/-- The first live wake handle in slab iteration order, if any. -/
def firstLive : List Slot → Option Waker
  | [] => none
  | some (some w) :: _ => some w
  | _ :: rest => firstLive rest

/-- The content of the first occupied slot in slab iteration order. -/
def firstOcc : List Slot → Option (Option Waker)
  | [] => none
  | some v :: _ => some v
  | none :: rest => firstOcc rest

/-- All live wake handles in slab iteration order. -/
def liveWakers : List Slot → List Waker
  | [] => []
  | some (some w) :: rest => w :: liveWakers rest
  | _ :: rest => liveWakers rest

/-- Inner representation of `WakerSet` (waker_set.rs:23-35): the slab
of entries plus the number of notifiable entries. -/
structure Inner where
  entries : Slab
  notifiable : Nat
deriving DecidableEq

/-- The tag published by `Lock::drop` (waker_set.rs:186-206): `NOTIFIED`
if there is at least one notified entry (`entries.len() - notifiable > 0`),
`NOTIFIABLE` if there is at least one notifiable entry (`notifiable > 0`). -/
def publishTag (i : Inner) : Nat :=
  let flag0 := 0
  let flag1 := if i.entries.len - i.notifiable > 0 then flag0 ||| NOTIFIED else flag0
  if i.notifiable > 0 then flag1 ||| NOTIFIABLE else flag1

/-- A `WakerSet` in sequential execution: the protected `Inner` plus the
tag currently published in the lock word.  A fresh set has an untagged
lock (waker_set.rs:46-53). -/
structure WakerSet where
  inner : Inner
  tag : Nat
deriving DecidableEq

def WakerSet.new : WakerSet := ⟨⟨Slab.new, 0⟩, 0⟩

/-- Releasing the internal lock with `i` as the final `Inner` state:
`Lock::drop` swaps the freshly computed tag into the lock word. -/
def unlockPublish (i : Inner) : WakerSet := ⟨i, publishTag i⟩

/-- Result of a `WakerSet` operation: the state after the operation, the
returned boolean, and the wakers invoked during the operation. -/
structure OpRes where
  state : WakerSet
  ret : Bool
  woken : List Waker
deriving DecidableEq

/-- `WakerSet::insert` (waker_set.rs:57-64): store the waker, increment
`notifiable`, return the key. -/
def WakerSet.insert (s : WakerSet) (w : Waker) : WakerSet × Nat :=
  let r := s.inner.entries.insert (some w)
  (unlockPublish ⟨r.1, s.inner.notifiable + 1⟩, r.2)

/-- `WakerSet::remove` (waker_set.rs:68-74): remove the entry; decrement
`notifiable` only if it still held a live handle. -/
def WakerSet.remove (s : WakerSet) (key : Nat) : WakerSet :=
  let r := s.inner.entries.remove key
  if r.2.isSome then unlockPublish ⟨r.1, s.inner.notifiable - 1⟩
  else unlockPublish ⟨r.1, s.inner.notifiable⟩

/-- The scan in the `None` branch of `WakerSet::cancel`
(waker_set.rs:87-94): walk the entries in slab iteration order, take and
wake the first live handle found. -/
def scanWakeFirst : List Slot → List Slot × Option Waker
  | [] => ([], none)
  | some (some w) :: rest => (some none :: rest, some w)
  | a :: rest =>
      let r := scanWakeFirst rest
      (a :: r.1, r.2)

/-- `WakerSet::cancel` (waker_set.rs:80-99): remove the entry; if it
still held a live handle decrement `notifiable` and return `false`;
otherwise transfer the missed notification to the first remaining entry
with a live handle and return whether such an entry existed. -/
def WakerSet.cancel (s : WakerSet) (key : Nat) : OpRes :=
  let r := s.inner.entries.remove key
  match r.2 with
  | some _ => ⟨unlockPublish ⟨r.1, s.inner.notifiable - 1⟩, false, []⟩
  | none =>
      let r2 := scanWakeFirst r.1.slots
      match r2.2 with
      | some w => ⟨unlockPublish ⟨⟨r2.1⟩, s.inner.notifiable - 1⟩, true, [w]⟩
      | none => ⟨unlockPublish ⟨⟨r2.1⟩, s.inner.notifiable⟩, false, []⟩

/-- Notification strategy (waker_set.rs:226-233). -/
inductive Notify
  | Any
  | One
  | All
deriving DecidableEq

/-- Result of the notification loop. -/
structure NotifyRes where
  slots : List Slot
  notifiable : Nat
  woken : List Waker
  notified : Bool
deriving DecidableEq

/-- The loop of `WakerSet::notify` (waker_set.rs:153-168), iterating
occupied entries in slab iteration order: take and wake a live handle
when present (decrementing `notifiable`), break after the first woken
entry for `One`, break after the first occupied entry — woken or not —
for `Any`, scan everything for `All`. -/
def notifyLoop (n : Notify) : List Slot → Nat → NotifyRes
  | [], nf => ⟨[], nf, [], false⟩
  | none :: rest, nf =>
      let r := notifyLoop n rest nf
      ⟨none :: r.slots, r.notifiable, r.woken, r.notified⟩
  | some none :: rest, nf =>
      if n = Notify.Any then ⟨some none :: rest, nf, [], false⟩
      else
        let r := notifyLoop n rest nf
        ⟨some none :: r.slots, r.notifiable, r.woken, r.notified⟩
  | some (some w) :: rest, nf =>
      if n = Notify.All then
        let r := notifyLoop n rest (nf - 1)
        ⟨some none :: r.slots, r.notifiable, w :: r.woken, true⟩
      else ⟨some none :: rest, nf - 1, [w], true⟩

/-- `WakerSet::notify` (waker_set.rs:149-171): run the notification loop
under the lock and publish the tag on release. -/
def WakerSet.notify (s : WakerSet) (n : Notify) : OpRes :=
  let r := notifyLoop n s.inner.entries.slots s.inner.notifiable
  ⟨unlockPublish ⟨⟨r.slots⟩, r.notifiable⟩, r.notified, r.woken⟩

/-- `WakerSet::flag` (waker_set.rs:101-104): read the published tag. -/
def WakerSet.flag (s : WakerSet) : Nat := s.tag

/-- `WakerSet::notify_any` (waker_set.rs:110-118): lock and notify only
when the tag shows no notified entry and at least one notifiable one. -/
def WakerSet.notify_any (s : WakerSet) : OpRes :=
  let flag := s.flag
  if flag &&& NOTIFIED = 0 ∧ flag &&& NOTIFIABLE ≠ 0 then s.notify Notify.Any
  else ⟨s, false, []⟩

/-- `WakerSet::notify_one` (waker_set.rs:125-131): lock and notify one
additional entry when the tag shows a notifiable entry. -/
def WakerSet.notify_one (s : WakerSet) : OpRes :=
  if s.flag &&& NOTIFIABLE ≠ 0 then s.notify Notify.One
  else ⟨s, false, []⟩

/-- `WakerSet::notify_all` (waker_set.rs:137-143): lock and notify all
entries when the tag shows a notifiable entry. -/
def WakerSet.notify_all (s : WakerSet) : OpRes :=
  if s.flag &&& NOTIFIABLE ≠ 0 then s.notify Notify.All
  else ⟨s, false, []⟩

/-- One sequential `WakerSet` operation. -/
inductive Op
  | insert (w : Waker)
  | remove (k : Nat)
  | cancel (k : Nat)
  | notifyAny
  | notifyOne
  | notifyAll
deriving DecidableEq

/-- Apply one operation to the state. -/
def step (s : WakerSet) : Op → WakerSet
  | Op.insert w => (s.insert w).1
  | Op.remove k => s.remove k
  | Op.cancel k => (s.cancel k).state
  | Op.notifyAny => s.notify_any.state
  | Op.notifyOne => s.notify_one.state
  | Op.notifyAll => s.notify_all.state

/-- Run a sequence of operations from a fresh `WakerSet`. -/
def run (ops : List Op) : WakerSet := ops.foldl step WakerSet.new

/-- The `Inner` count invariant: `notifiable` equals the number of
entries whose stored waker is `some`. -/
def Inv (i : Inner) : Prop := i.notifiable = countLive i.entries.slots

/-- The published tag agrees with the authoritative `Inner` counts. -/
def TagOk (s : WakerSet) : Prop := s.tag = publishTag s.inner

/-- Total number of wakers invoked by `n` consecutive `notify_any`
calls with no other operation in between. -/
def totalAnyWoken (s : WakerSet) : Nat → Nat
  | 0 => 0
  | n + 1 => s.notify_any.woken.length + totalAnyWoken s.notify_any.state n

/-! ### The once lock (src/locker/src/once/local.rs)

The `Finish` implementation stores its state in the tag bits of a tagged
lock.  The tagged backend `mutex::local_tagged::RawLock` is not part of
the sources, so its tag operations are modelled from the spec. -/

/-- `RawLock::DONE_BIT` (once/local.rs:16). -/
def DONE_BIT : Nat := 1

/-- `RawLock::POISON_BIT` (once/local.rs:17). -/
def POISON_BIT : Nat := 2

/-- Modelled from the spec: the tagged lock backend
`mutex::local_tagged::RawLock` is not part of the sources; only its tag
word matters for the once lock.  §4.1: `tag(ordering)` reads the
auxiliary bits; `or_tag` ORs bits in and returns the previous value. -/
structure OnceRawLock where
  tagBits : Nat
deriving DecidableEq

/-- `RawLock::new` (once/local.rs:19-23): lock in its initial
(unlocked, untagged) state. -/
def OnceRawLock.new : OnceRawLock := ⟨0⟩

/-- Modelled from the spec (§4.1): `tag` reads the auxiliary bits. -/
def OnceRawLock.tag (l : OnceRawLock) : Nat := l.tagBits

/-- Modelled from the spec (§4.1): `or_tag` ORs in bits and returns the
previous value. -/
def OnceRawLock.or_tag (l : OnceRawLock) (bits : Nat) : OnceRawLock × Nat :=
  (⟨l.tagBits ||| bits⟩, l.tagBits)

/-- `Finish::is_done` (once/local.rs:60-62). -/
def OnceRawLock.is_done (l : OnceRawLock) : Bool :=
  l.tag &&& DONE_BIT != 0

/-- `Finish::mark_done` (once/local.rs:65-67). -/
def OnceRawLock.mark_done (l : OnceRawLock) : OnceRawLock :=
  (l.or_tag DONE_BIT).1

/-- `Finish::get_and_mark_poisoned` (once/local.rs:70-73): OR the
poison bit in and report whether it was set in the previous state. -/
def OnceRawLock.get_and_mark_poisoned (l : OnceRawLock) : OnceRawLock × Bool :=
  let state := l.or_tag POISON_BIT
  (state.1, (state.2 &&& POISON_BIT) != 0)

/-- A state-changing operation on the once lock. -/
inductive OnceOp
  | markDone
  | poison
deriving DecidableEq

def ostep (l : OnceRawLock) : OnceOp → OnceRawLock
  | OnceOp.markDone => l.mark_done
  | OnceOp.poison => l.get_and_mark_poisoned.1

/-- Run a sequence of once-lock operations from an arbitrary state. -/
def orunFrom (l : OnceRawLock) (ops : List OnceOp) : OnceRawLock :=
  ops.foldl ostep l

/-! ### The mutex (src/locker/src/mutex.rs, src/locker/src/exclusive_lock/raw.rs)

`Mutex::lock` calls `RawExclusiveGuard::new` (acquire, then build the
guard), `Mutex::try_lock` calls `RawExclusiveGuard::try_new` (acquire
only if free), and dropping a guard calls `uniq_unlock` exactly once.
Modelled from the spec for the lock-bit backend (the spin-lock
implementation is not part of the sources; §4.1: `lock()` blocks until
exclusive ownership is acquired, `try_lock()` fails without blocking
when the lock is held, `unlock()` releases ownership): the state is the
exclusive bit plus the number of live guards.  Each operation of the
interleaved model is one atomic acquisition/release step; a blocked
`lock()` call simply has not taken its step yet. -/
structure MutexState where
  locked : Bool
  guards : Nat
deriving DecidableEq

/-- A freshly created mutex: unlocked, no guards. -/
def MutexState.init : MutexState := ⟨false, 0⟩

/-- A `lock()` call completing: only possible when the lock is free;
creates a guard (`RawExclusiveGuard::new`, raw.rs:39-43).  While the
lock is held the caller keeps spinning and the state is unchanged. -/
def mlock (s : MutexState) : MutexState :=
  if s.locked then s else ⟨true, s.guards + 1⟩

/-- A `try_lock()` call (`RawExclusiveGuard::try_new`, raw.rs:45-51):
returns `false` (no guard) when the lock is held, otherwise acquires
and creates a guard. -/
def mtry_lock (s : MutexState) : MutexState × Bool :=
  if s.locked then (s, false) else (⟨true, s.guards + 1⟩, true)

/-- Dropping a guard (`_RawExclusiveGuard::drop`, raw.rs:11-15): calls
`uniq_unlock` exactly once, releasing the lock. -/
def mdrop (s : MutexState) : MutexState :=
  if s.guards = 0 then s else ⟨false, s.guards - 1⟩

/-- One step of the interleaved mutex model.  Guards are only created
by `lock` and successful `try_lock` steps. -/
inductive MOp
  | lock
  | tryLock
  | dropGuard
deriving DecidableEq

def mstep (s : MutexState) : MOp → MutexState
  | MOp.lock => mlock s
  | MOp.tryLock => (mtry_lock s).1
  | MOp.dropGuard => mdrop s

/-- Run a sequence of mutex operations from a fresh mutex. -/
def mrun (ops : List MOp) : MutexState := ops.foldl mstep MutexState.init

/-! ### Equation lemmas for the recursive definitions -/

@[simp] theorem countOcc_nil : countOcc [] = 0 := rfl

@[simp] theorem countOcc_cons_occ (v : Option Waker) (l : List Slot) :
    countOcc (some v :: l) = countOcc l + 1 := rfl

@[simp] theorem countOcc_cons_vacant (l : List Slot) :
    countOcc (none :: l) = countOcc l := rfl

@[simp] theorem countLive_nil : countLive [] = 0 := rfl

@[simp] theorem countLive_cons_live (w : Waker) (l : List Slot) :
    countLive (some (some w) :: l) = countLive l + 1 := rfl

@[simp] theorem countLive_cons_taken (l : List Slot) :
    countLive (some none :: l) = countLive l := rfl

@[simp] theorem countLive_cons_vacant (l : List Slot) :
    countLive (none :: l) = countLive l := rfl

@[simp] theorem countTaken_nil : countTaken [] = 0 := rfl

@[simp] theorem countTaken_cons_live (w : Waker) (l : List Slot) :
    countTaken (some (some w) :: l) = countTaken l := rfl

@[simp] theorem countTaken_cons_taken (l : List Slot) :
    countTaken (some none :: l) = countTaken l + 1 := rfl

@[simp] theorem countTaken_cons_vacant (l : List Slot) :
    countTaken (none :: l) = countTaken l := rfl

@[simp] theorem firstLive_nil : firstLive [] = none := rfl

@[simp] theorem firstLive_cons_live (w : Waker) (l : List Slot) :
    firstLive (some (some w) :: l) = some w := rfl

@[simp] theorem firstLive_cons_taken (l : List Slot) :
    firstLive (some none :: l) = firstLive l := rfl

@[simp] theorem firstLive_cons_vacant (l : List Slot) :
    firstLive (none :: l) = firstLive l := rfl

@[simp] theorem firstOcc_nil : firstOcc [] = none := rfl

@[simp] theorem firstOcc_cons_occ (v : Option Waker) (l : List Slot) :
    firstOcc (some v :: l) = some v := rfl

@[simp] theorem firstOcc_cons_vacant (l : List Slot) :
    firstOcc (none :: l) = firstOcc l := rfl

@[simp] theorem liveWakers_nil : liveWakers [] = [] := rfl

@[simp] theorem liveWakers_cons_live (w : Waker) (l : List Slot) :
    liveWakers (some (some w) :: l) = w :: liveWakers l := rfl

@[simp] theorem liveWakers_cons_taken (l : List Slot) :
    liveWakers (some none :: l) = liveWakers l := rfl

@[simp] theorem liveWakers_cons_vacant (l : List Slot) :
    liveWakers (none :: l) = liveWakers l := rfl

@[simp] theorem scanWakeFirst_nil : scanWakeFirst [] = ([], none) := rfl

@[simp] theorem scanWakeFirst_cons_live (w : Waker) (l : List Slot) :
    scanWakeFirst (some (some w) :: l) = (some none :: l, some w) := rfl

@[simp] theorem scanWakeFirst_cons_taken (l : List Slot) :
    scanWakeFirst (some none :: l) =
      (some none :: (scanWakeFirst l).1, (scanWakeFirst l).2) := rfl

@[simp] theorem scanWakeFirst_cons_vacant (l : List Slot) :
    scanWakeFirst (none :: l) =
      (none :: (scanWakeFirst l).1, (scanWakeFirst l).2) := rfl

@[simp] theorem findVacant_nil : findVacant [] = none := rfl

@[simp] theorem findVacant_cons_vacant (l : List Slot) :
    findVacant (none :: l) = some 0 := rfl

@[simp] theorem findVacant_cons_occ (v : Option Waker) (l : List Slot) :
    findVacant (some v :: l) = (findVacant l).map (· + 1) := rfl

/-! ### Counting lemmas -/

theorem countOcc_eq_countLive_add_countTaken (l : List Slot) :
    countOcc l = countLive l + countTaken l := by
  induction l with
  | nil => rfl
  | cons a l ih =>
    rcases a with _ | (_ | w) <;> simp [ih] <;> omega

theorem findVacant_get (l : List Slot) (i : Nat) (h : findVacant l = some i) :
    l[i]? = some none := by
  induction l generalizing i with
  | nil => simp at h
  | cons a l ih =>
    rcases a with _ | v
    · simp at h
      subst h
      simp
    · rw [findVacant_cons_occ] at h
      cases hf : findVacant l with
      | none => rw [hf] at h; simp at h
      | some j =>
        rw [hf] at h
        simp at h
        subst h
        simpa using ih j hf

theorem findVacant_lt_length (l : List Slot) (i : Nat) (h : findVacant l = some i) :
    i < l.length := by
  have h2 := findVacant_get l i h
  exact (List.getElem?_eq_some.mp h2).1

theorem countLive_set_vacant (l : List Slot) (i : Nat) (w : Waker)
    (h : l[i]? = some none) :
    countLive (l.set i (some (some w))) = countLive l + 1 := by
  induction l generalizing i with
  | nil => simp at h
  | cons a l ih =>
    cases i with
    | zero =>
      simp at h
      subst h
      simp
    | succ i =>
      simp at h
      rcases a with _ | (_ | v) <;> simp [List.set, ih i h] <;> omega

theorem countTaken_set_vacant (l : List Slot) (i : Nat) (w : Waker)
    (h : l[i]? = some none) :
    countTaken (l.set i (some (some w))) = countTaken l := by
  induction l generalizing i with
  | nil => simp at h
  | cons a l ih =>
    cases i with
    | zero =>
      simp at h
      subst h
      simp
    | succ i =>
      simp at h
      rcases a with _ | (_ | v) <;> simp [List.set, ih i h]

theorem countOcc_set_vacant (l : List Slot) (i : Nat) (v : Option Waker)
    (h : l[i]? = some none) :
    countOcc (l.set i (some v)) = countOcc l + 1 := by
  induction l generalizing i with
  | nil => simp at h
  | cons a l ih =>
    cases i with
    | zero =>
      simp at h
      subst h
      simp
    | succ i =>
      simp at h
      rcases a with _ | u <;> simp [List.set, ih i h]

theorem countLive_set_none_of_live (l : List Slot) (i : Nat) (w : Waker)
    (h : l[i]? = some (some (some w))) :
    countLive (l.set i none) + 1 = countLive l := by
  induction l generalizing i with
  | nil => simp at h
  | cons a l ih =>
    cases i with
    | zero =>
      simp at h
      subst h
      simp
    | succ i =>
      simp at h
      rcases a with _ | (_ | v) <;> simp [List.set, ← ih i h] <;> omega

theorem countTaken_set_none_of_live (l : List Slot) (i : Nat) (w : Waker)
    (h : l[i]? = some (some (some w))) :
    countTaken (l.set i none) = countTaken l := by
  induction l generalizing i with
  | nil => simp at h
  | cons a l ih =>
    cases i with
    | zero =>
      simp at h
      subst h
      simp
    | succ i =>
      simp at h
      rcases a with _ | (_ | v) <;> simp [List.set, ih i h]

theorem countLive_set_none_of_taken (l : List Slot) (i : Nat)
    (h : l[i]? = some (some none)) :
    countLive (l.set i none) = countLive l := by
  induction l generalizing i with
  | nil => simp at h
  | cons a l ih =>
    cases i with
    | zero =>
      simp at h
      subst h
      simp
    | succ i =>
      simp at h
      rcases a with _ | (_ | v) <;> simp [List.set, ih i h]

theorem countTaken_set_none_of_taken (l : List Slot) (i : Nat)
    (h : l[i]? = some (some none)) :
    countTaken (l.set i none) + 1 = countTaken l := by
  induction l generalizing i with
  | nil => simp at h
  | cons a l ih =>
    cases i with
    | zero =>
      simp at h
      subst h
      simp
    | succ i =>
      simp at h
      rcases a with _ | (_ | v) <;> simp [List.set, ← ih i h] <;> omega

theorem countOcc_set_none_of_occ (l : List Slot) (i : Nat) (v : Option Waker)
    (h : l[i]? = some (some v)) :
    countOcc (l.set i none) + 1 = countOcc l := by
  induction l generalizing i with
  | nil => simp at h
  | cons a l ih =>
    cases i with
    | zero =>
      simp at h
      subst h
      simp
    | succ i =>
      simp at h
      rcases a with _ | u <;> simp [List.set, ← ih i h] <;> omega

theorem countLive_append_live (l : List Slot) (w : Waker) :
    countLive (l ++ [some (some w)]) = countLive l + 1 := by
  induction l with
  | nil => rfl
  | cons a l ih => rcases a with _ | (_ | v) <;> simp [ih]

theorem countTaken_append_live (l : List Slot) (w : Waker) :
    countTaken (l ++ [some (some w)]) = countTaken l := by
  induction l with
  | nil => rfl
  | cons a l ih => rcases a with _ | (_ | v) <;> simp [ih]

theorem countOcc_append_live (l : List Slot) (w : Waker) :
    countOcc (l ++ [some (some w)]) = countOcc l + 1 := by
  induction l with
  | nil => rfl
  | cons a l ih => rcases a with _ | v <;> simp [ih]

/-! ### Scan lemmas -/

theorem scanWakeFirst_snd (l : List Slot) : (scanWakeFirst l).2 = firstLive l := by
  induction l with
  | nil => rfl
  | cons a l ih => rcases a with _ | (_ | w) <;> simp [ih]

theorem firstLive_eq_none_iff (l : List Slot) :
    firstLive l = none ↔ countLive l = 0 := by
  induction l with
  | nil => simp
  | cons a l ih => rcases a with _ | (_ | w) <;> simp [ih]

theorem firstOcc_eq_none_iff (l : List Slot) :
    firstOcc l = none ↔ countOcc l = 0 := by
  induction l with
  | nil => simp
  | cons a l ih => rcases a with _ | v <;> simp [ih]

theorem firstOcc_of_no_taken (l : List Slot) (h : countTaken l = 0) :
    firstOcc l = Option.map some (firstLive l) := by
  induction l with
  | nil => simp
  | cons a l ih =>
    rcases a with _ | (_ | w)
    · simp at h
      simp [ih h]
    · simp at h
    · simp

theorem scanWakeFirst_of_firstLive_none (l : List Slot)
    (h : firstLive l = none) : scanWakeFirst l = (l, none) := by
  induction l with
  | nil => rfl
  | cons a l ih =>
    rcases a with _ | (_ | w)
    · simp at h
      rw [scanWakeFirst_cons_vacant, ih h]
    · simp at h
      rw [scanWakeFirst_cons_taken, ih h]
    · simp at h

theorem scanWakeFirst_counts (l : List Slot) (w : Waker)
    (h : firstLive l = some w) :
    countLive (scanWakeFirst l).1 + 1 = countLive l ∧
    countTaken (scanWakeFirst l).1 = countTaken l + 1 ∧
    countOcc (scanWakeFirst l).1 = countOcc l := by
  induction l with
  | nil => simp at h
  | cons a l ih =>
    rcases a with _ | (_ | v)
    · simp at h
      obtain ⟨h1, h2, h3⟩ := ih h
      simp [h1, h2, h3]
    · simp at h
      obtain ⟨h1, h2, h3⟩ := ih h
      simp [h1, h2, h3]
    · simp

/-! ### Notification loop lemmas -/

@[simp] theorem notifyLoop_nil (n : Notify) (nf : Nat) :
    notifyLoop n [] nf = ⟨[], nf, [], false⟩ := rfl

@[simp] theorem notifyLoop_vacant (n : Notify) (l : List Slot) (nf : Nat) :
    notifyLoop n (none :: l) nf =
      ⟨none :: (notifyLoop n l nf).slots, (notifyLoop n l nf).notifiable,
        (notifyLoop n l nf).woken, (notifyLoop n l nf).notified⟩ := rfl

theorem notifyLoop_taken_any (l : List Slot) (nf : Nat) :
    notifyLoop Notify.Any (some none :: l) nf = ⟨some none :: l, nf, [], false⟩ := rfl

theorem notifyLoop_taken_of_ne (n : Notify) (l : List Slot) (nf : Nat)
    (h : n ≠ Notify.Any) :
    notifyLoop n (some none :: l) nf =
      ⟨some none :: (notifyLoop n l nf).slots, (notifyLoop n l nf).notifiable,
        (notifyLoop n l nf).woken, (notifyLoop n l nf).notified⟩ := by
  simp [notifyLoop, h]

theorem notifyLoop_live_all (w : Waker) (l : List Slot) (nf : Nat) :
    notifyLoop Notify.All (some (some w) :: l) nf =
      ⟨some none :: (notifyLoop Notify.All l (nf - 1)).slots,
        (notifyLoop Notify.All l (nf - 1)).notifiable,
        w :: (notifyLoop Notify.All l (nf - 1)).woken, true⟩ := rfl

theorem notifyLoop_live_of_ne (n : Notify) (w : Waker) (l : List Slot) (nf : Nat)
    (h : n ≠ Notify.All) :
    notifyLoop n (some (some w) :: l) nf = ⟨some none :: l, nf - 1, [w], true⟩ := by
  simp [notifyLoop, h]

/-- The `All` strategy takes every live waker, decrements `notifiable`
once per live entry, wakes the live wakers in slab iteration order, and
reports whether any entry was woken. -/
theorem notifyLoop_all_spec (l : List Slot) (nf : Nat) :
    (notifyLoop Notify.All l nf).woken = liveWakers l ∧
    (notifyLoop Notify.All l nf).notifiable = nf - countLive l ∧
    countLive (notifyLoop Notify.All l nf).slots = 0 ∧
    countTaken (notifyLoop Notify.All l nf).slots = countTaken l + countLive l ∧
    countOcc (notifyLoop Notify.All l nf).slots = countOcc l ∧
    (notifyLoop Notify.All l nf).notified = decide (0 < countLive l) := by
  induction l generalizing nf with
  | nil => simp
  | cons a l ih =>
    rcases a with _ | (_ | w)
    · obtain ⟨h1, h2, h3, h4, h5, h6⟩ := ih nf
      simp [h1, h2, h3, h4, h5, h6]
    · rw [notifyLoop_taken_of_ne _ _ _ (by simp)]
      obtain ⟨h1, h2, h3, h4, h5, h6⟩ := ih nf
      simp [h1, h2, h3, h4, h5, h6]
      omega
    · rw [notifyLoop_live_all]
      obtain ⟨h1, h2, h3, h4, h5, h6⟩ := ih (nf - 1)
      simp [h1, h2, h3, h4, h5, h6]
      omega

/-- The `One` strategy with no live entry scans to the end, wakes
nothing, and leaves everything unchanged. -/
theorem notifyLoop_one_none (l : List Slot) (nf : Nat)
    (h : firstLive l = none) :
    notifyLoop Notify.One l nf = ⟨l, nf, [], false⟩ := by
  induction l generalizing nf with
  | nil => rfl
  | cons a l ih =>
    rcases a with _ | (_ | w)
    · simp at h
      simp [ih nf h]
    · simp at h
      rw [notifyLoop_taken_of_ne _ _ _ (by simp), ih nf h]
    · simp at h

/-- The `One` strategy with a live entry wakes exactly the first live
waker in slab iteration order and decrements `notifiable` once. -/
theorem notifyLoop_one_some (l : List Slot) (nf : Nat) (w : Waker)
    (h : firstLive l = some w) :
    (notifyLoop Notify.One l nf).woken = [w] ∧
    (notifyLoop Notify.One l nf).notifiable = nf - 1 ∧
    (notifyLoop Notify.One l nf).notified = true ∧
    countLive (notifyLoop Notify.One l nf).slots + 1 = countLive l ∧
    countTaken (notifyLoop Notify.One l nf).slots = countTaken l + 1 ∧
    countOcc (notifyLoop Notify.One l nf).slots = countOcc l := by
  induction l generalizing nf with
  | nil => simp at h
  | cons a l ih =>
    rcases a with _ | (_ | v)
    · simp at h
      obtain ⟨h1, h2, h3, h4, h5, h6⟩ := ih nf h
      simp [h1, h2, h3, h4, h5, h6]
    · simp at h
      rw [notifyLoop_taken_of_ne _ _ _ (by simp)]
      obtain ⟨h1, h2, h3, h4, h5, h6⟩ := ih nf h
      simp [h1, h2, h3, h4, h5, h6]
    · simp at h
      subst h
      rw [notifyLoop_live_of_ne _ _ _ _ (by simp)]
      simp

/-- The `Any` strategy stops at the first occupied entry: when no
occupied entry exists the state is unchanged and nothing is woken. -/
theorem notifyLoop_any_no_occ (l : List Slot) (nf : Nat)
    (h : firstOcc l = none) :
    notifyLoop Notify.Any l nf = ⟨l, nf, [], false⟩ := by
  induction l generalizing nf with
  | nil => rfl
  | cons a l ih =>
    rcases a with _ | v
    · simp at h
      simp [ih nf h]
    · simp at h

/-- The `Any` strategy stops at the first occupied entry: when that
entry's waker was already taken, nothing is woken and the state is
unchanged, even if later entries hold live wakers. -/
theorem notifyLoop_any_taken (l : List Slot) (nf : Nat)
    (h : firstOcc l = some none) :
    notifyLoop Notify.Any l nf = ⟨l, nf, [], false⟩ := by
  induction l generalizing nf with
  | nil => simp at h
  | cons a l ih =>
    rcases a with _ | (_ | w)
    · simp at h
      simp [ih nf h]
    · rw [notifyLoop_taken_any]
    · simp at h

/-- The `Any` strategy wakes the first occupied entry when it holds a
live waker. -/
theorem notifyLoop_any_live (l : List Slot) (nf : Nat) (w : Waker)
    (h : firstOcc l = some (some w)) :
    (notifyLoop Notify.Any l nf).woken = [w] ∧
    (notifyLoop Notify.Any l nf).notifiable = nf - 1 ∧
    (notifyLoop Notify.Any l nf).notified = true ∧
    countLive (notifyLoop Notify.Any l nf).slots + 1 = countLive l ∧
    countTaken (notifyLoop Notify.Any l nf).slots = countTaken l + 1 ∧
    countOcc (notifyLoop Notify.Any l nf).slots = countOcc l := by
  induction l generalizing nf with
  | nil => simp at h
  | cons a l ih =>
    rcases a with _ | (_ | v)
    · simp at h
      obtain ⟨h1, h2, h3, h4, h5, h6⟩ := ih nf h
      simp [h1, h2, h3, h4, h5, h6]
    · simp at h
    · simp at h
      subst h
      rw [notifyLoop_live_of_ne _ _ _ _ (by simp)]
      simp

/-! ### Tag lemmas -/

theorem publishTag_and_NOTIFIED (i : Inner) :
    (publishTag i &&& NOTIFIED = 0) ↔ i.entries.len - i.notifiable = 0 := by
  unfold publishTag NOTIFIED NOTIFIABLE
  by_cases h1 : i.entries.len - i.notifiable > 0 <;>
    by_cases h2 : i.notifiable > 0 <;>
      simp [h1, h2] <;> omega

theorem publishTag_and_NOTIFIABLE (i : Inner) :
    (publishTag i &&& NOTIFIABLE ≠ 0) ↔ 0 < i.notifiable := by
  unfold publishTag NOTIFIED NOTIFIABLE
  by_cases h1 : i.entries.len - i.notifiable > 0 <;>
    by_cases h2 : i.notifiable > 0 <;>
      simp [h1, h2] <;> omega

theorem Inv_len_sub (i : Inner) (h : Inv i) :
    i.entries.len - i.notifiable = countTaken i.entries.slots := by
  have hc := countOcc_eq_countLive_add_countTaken i.entries.slots
  unfold Inv at h
  unfold Slab.len
  omega

/-- Under the invariants, the `NOTIFIED` bit of the published tag is
clear exactly when no entry is in the notified state. -/
theorem flag_NOTIFIED_iff (s : WakerSet) (hI : Inv s.inner) (hT : TagOk s) :
    (s.flag &&& NOTIFIED = 0) ↔ countTaken s.inner.entries.slots = 0 := by
  unfold WakerSet.flag
  rw [hT, publishTag_and_NOTIFIED, Inv_len_sub s.inner hI]

/-- Under the invariants, the `NOTIFIABLE` bit of the published tag is
set exactly when some entry still holds a live waker. -/
theorem flag_NOTIFIABLE_iff (s : WakerSet) (hI : Inv s.inner) (hT : TagOk s) :
    (s.flag &&& NOTIFIABLE ≠ 0) ↔ 0 < countLive s.inner.entries.slots := by
  unfold WakerSet.flag
  rw [hT, publishTag_and_NOTIFIABLE, hI]

@[simp] theorem unlockPublish_inner (i : Inner) : (unlockPublish i).inner = i := rfl

@[simp] theorem unlockPublish_tag (i : Inner) : (unlockPublish i).tag = publishTag i := rfl

theorem TagOk_unlockPublish (i : Inner) : TagOk (unlockPublish i) := rfl

/-! ### Behavior of the slab operations -/

theorem Slab.insert_spec (s : Slab) (w : Waker) :
    countLive (s.insert (some w)).1.slots = countLive s.slots + 1 ∧
    countTaken (s.insert (some w)).1.slots = countTaken s.slots ∧
    countOcc (s.insert (some w)).1.slots = countOcc s.slots + 1 ∧
    (s.insert (some w)).1.slots[(s.insert (some w)).2]? = some (some (some w)) := by
  unfold Slab.insert
  cases hf : findVacant s.slots with
  | some i =>
    have hg := findVacant_get s.slots i hf
    have hl := findVacant_lt_length s.slots i hf
    refine ⟨countLive_set_vacant _ _ _ hg, countTaken_set_vacant _ _ _ hg,
      countOcc_set_vacant _ _ _ hg, ?_⟩
    simp [List.getElem?_set_self, hl]
  | none =>
    refine ⟨countLive_append_live _ _, countTaken_append_live _ _,
      countOcc_append_live _ _, ?_⟩
    simp

theorem Slab.remove_live (s : Slab) (k : Nat) (w : Waker)
    (h : s.slots[k]? = some (some (some w))) :
    s.remove k = (⟨s.slots.set k none⟩, some w) := by
  unfold Slab.remove
  rw [h]

theorem Slab.remove_taken (s : Slab) (k : Nat)
    (h : s.slots[k]? = some (some none)) :
    s.remove k = (⟨s.slots.set k none⟩, none) := by
  unfold Slab.remove
  rw [h]

theorem Slab.remove_vacant (s : Slab) (k : Nat)
    (h : s.slots[k]? = some none) :
    s.remove k = (s, none) := by
  unfold Slab.remove
  rw [h]

theorem Slab.remove_oob (s : Slab) (k : Nat)
    (h : s.slots[k]? = none) :
    s.remove k = (s, none) := by
  unfold Slab.remove
  rw [h]

/-! ### Behavior of the WakerSet operations -/

theorem insert_state (s : WakerSet) (w : Waker) :
    (s.insert w).1 =
      unlockPublish ⟨(s.inner.entries.insert (some w)).1, s.inner.notifiable + 1⟩ := rfl

theorem removeOp_live (s : WakerSet) (k : Nat) (w : Waker)
    (h : s.inner.entries.slots[k]? = some (some (some w))) :
    s.remove k =
      unlockPublish ⟨⟨s.inner.entries.slots.set k none⟩, s.inner.notifiable - 1⟩ := by
  simp [WakerSet.remove, Slab.remove_live s.inner.entries k w h]

theorem removeOp_taken (s : WakerSet) (k : Nat)
    (h : s.inner.entries.slots[k]? = some (some none)) :
    s.remove k =
      unlockPublish ⟨⟨s.inner.entries.slots.set k none⟩, s.inner.notifiable⟩ := by
  simp [WakerSet.remove, Slab.remove_taken s.inner.entries k h]

theorem removeOp_vacant (s : WakerSet) (k : Nat)
    (h : s.inner.entries.slots[k]? = some none) :
    s.remove k = unlockPublish s.inner := by
  simp [WakerSet.remove, Slab.remove_vacant s.inner.entries k h]

theorem removeOp_oob (s : WakerSet) (k : Nat)
    (h : s.inner.entries.slots[k]? = none) :
    s.remove k = unlockPublish s.inner := by
  simp [WakerSet.remove, Slab.remove_oob s.inner.entries k h]

theorem cancel_live (s : WakerSet) (k : Nat) (w : Waker)
    (h : s.inner.entries.slots[k]? = some (some (some w))) :
    s.cancel k =
      ⟨unlockPublish ⟨⟨s.inner.entries.slots.set k none⟩, s.inner.notifiable - 1⟩,
        false, []⟩ := by
  simp [WakerSet.cancel, Slab.remove_live s.inner.entries k w h]

theorem cancel_scan_found (s : WakerSet) (k : Nat) (e : Slab) (w : Waker)
    (hrem : s.inner.entries.remove k = (e, none))
    (hfl : firstLive e.slots = some w) :
    s.cancel k =
      ⟨unlockPublish ⟨⟨(scanWakeFirst e.slots).1⟩, s.inner.notifiable - 1⟩,
        true, [w]⟩ := by
  have h2 : (scanWakeFirst e.slots).2 = some w := by
    rw [scanWakeFirst_snd]; exact hfl
  simp [WakerSet.cancel, hrem, h2]

theorem cancel_scan_none (s : WakerSet) (k : Nat) (e : Slab)
    (hrem : s.inner.entries.remove k = (e, none))
    (hfl : firstLive e.slots = none) :
    s.cancel k = ⟨unlockPublish ⟨⟨e.slots⟩, s.inner.notifiable⟩, false, []⟩ := by
  have h2 : scanWakeFirst e.slots = (e.slots, none) :=
    scanWakeFirst_of_firstLive_none e.slots hfl
  simp [WakerSet.cancel, hrem, h2]

theorem notify_state (s : WakerSet) (n : Notify) :
    s.notify n =
      ⟨unlockPublish ⟨⟨(notifyLoop n s.inner.entries.slots s.inner.notifiable).slots⟩,
          (notifyLoop n s.inner.entries.slots s.inner.notifiable).notifiable⟩,
        (notifyLoop n s.inner.entries.slots s.inner.notifiable).notified,
        (notifyLoop n s.inner.entries.slots s.inner.notifiable).woken⟩ := rfl

/-! ### Preservation of the invariants -/

theorem Inv_insert (s : WakerSet) (w : Waker) (h : Inv s.inner) :
    Inv (s.insert w).1.inner := by
  obtain ⟨h1, _, _, _⟩ := Slab.insert_spec s.inner.entries w
  unfold Inv at *
  rw [insert_state]
  simp [h1, h]

theorem Inv_remove (s : WakerSet) (k : Nat) (h : Inv s.inner) :
    Inv (s.remove k).inner := by
  unfold Inv at *
  rcases hk : s.inner.entries.slots[k]? with _ | (_ | (_ | w))
  · rw [removeOp_oob s k hk]; simpa using h
  · rw [removeOp_vacant s k hk]; simpa using h
  · rw [removeOp_taken s k hk]
    have := countLive_set_none_of_taken _ _ hk
    simpa [this] using h
  · rw [removeOp_live s k w hk]
    have := countLive_set_none_of_live _ _ _ hk
    simp
    omega

theorem Inv_cancel (s : WakerSet) (k : Nat) (h : Inv s.inner) :
    Inv (s.cancel k).state.inner := by
  unfold Inv at *
  rcases hk : s.inner.entries.slots[k]? with _ | (_ | (_ | w))
  all_goals try {
    first
    | (rw [cancel_live s k _ hk]
       have := countLive_set_none_of_live _ _ _ hk
       simp
       omega)
  }
  · -- out of range: remove leaves the slab unchanged
    have hrem := Slab.remove_oob s.inner.entries k hk
    rcases hfl : firstLive s.inner.entries.slots with _ | w
    · rw [cancel_scan_none s k _ hrem hfl]
      simpa using h
    · rw [cancel_scan_found s k _ w hrem hfl]
      obtain ⟨h1, _, _⟩ := scanWakeFirst_counts _ _ hfl
      simp
      omega
  · -- vacant slot: remove leaves the slab unchanged
    have hrem := Slab.remove_vacant s.inner.entries k hk
    rcases hfl : firstLive s.inner.entries.slots with _ | w
    · rw [cancel_scan_none s k _ hrem hfl]
      simpa using h
    · rw [cancel_scan_found s k _ w hrem hfl]
      obtain ⟨h1, _, _⟩ := scanWakeFirst_counts _ _ hfl
      simp
      omega
  · -- taken entry: remove vacates the slot, then the scan transfers
    have hrem := Slab.remove_taken s.inner.entries k hk
    have hcl := countLive_set_none_of_taken _ _ hk
    rcases hfl : firstLive (s.inner.entries.slots.set k none) with _ | w
    · rw [cancel_scan_none s k _ hrem hfl]
      simpa [hcl] using h
    · rw [cancel_scan_found s k _ w hrem hfl]
      obtain ⟨h1, _, _⟩ := scanWakeFirst_counts _ _ hfl
      simp
      omega

theorem Inv_notify (s : WakerSet) (n : Notify) (h : Inv s.inner) :
    Inv (s.notify n).state.inner := by
  unfold Inv at *
  rw [notify_state]
  cases n with
  | All =>
    obtain ⟨_, h2, h3, _, _, _⟩ := notifyLoop_all_spec s.inner.entries.slots s.inner.notifiable
    simp [h2, h3]
    omega
  | One =>
    rcases hfl : firstLive s.inner.entries.slots with _ | w
    · rw [notifyLoop_one_none _ _ hfl]
      simpa using h
    · obtain ⟨_, h2, _, h4, _, _⟩ := notifyLoop_one_some _ s.inner.notifiable _ hfl
      simp [h2]
      omega
  | Any =>
    rcases hfo : firstOcc s.inner.entries.slots with _ | (_ | w)
    · rw [notifyLoop_any_no_occ _ _ hfo]
      simpa using h
    · rw [notifyLoop_any_taken _ _ hfo]
      simpa using h
    · obtain ⟨_, h2, _, h4, _, _⟩ := notifyLoop_any_live _ s.inner.notifiable _ hfo
      simp [h2]
      omega

theorem notify_any_pos (s : WakerSet)
    (hc : s.flag &&& NOTIFIED = 0 ∧ s.flag &&& NOTIFIABLE ≠ 0) :
    s.notify_any = s.notify Notify.Any := by
  unfold WakerSet.notify_any
  exact if_pos hc

theorem notify_any_neg (s : WakerSet)
    (hc : ¬(s.flag &&& NOTIFIED = 0 ∧ s.flag &&& NOTIFIABLE ≠ 0)) :
    s.notify_any = ⟨s, false, []⟩ := by
  unfold WakerSet.notify_any
  exact if_neg hc

theorem notify_one_pos (s : WakerSet) (hc : s.flag &&& NOTIFIABLE ≠ 0) :
    s.notify_one = s.notify Notify.One := by
  unfold WakerSet.notify_one
  exact if_pos hc

theorem notify_one_neg (s : WakerSet) (hc : ¬s.flag &&& NOTIFIABLE ≠ 0) :
    s.notify_one = ⟨s, false, []⟩ := by
  unfold WakerSet.notify_one
  exact if_neg hc

theorem notify_all_pos (s : WakerSet) (hc : s.flag &&& NOTIFIABLE ≠ 0) :
    s.notify_all = s.notify Notify.All := by
  unfold WakerSet.notify_all
  exact if_pos hc

theorem notify_all_neg (s : WakerSet) (hc : ¬s.flag &&& NOTIFIABLE ≠ 0) :
    s.notify_all = ⟨s, false, []⟩ := by
  unfold WakerSet.notify_all
  exact if_neg hc

theorem Inv_notify_any (s : WakerSet) (h : Inv s.inner) :
    Inv s.notify_any.state.inner := by
  by_cases hc : s.flag &&& NOTIFIED = 0 ∧ s.flag &&& NOTIFIABLE ≠ 0
  · rw [notify_any_pos s hc]
    exact Inv_notify s Notify.Any h
  · rw [notify_any_neg s hc]
    exact h

theorem Inv_notify_one (s : WakerSet) (h : Inv s.inner) :
    Inv s.notify_one.state.inner := by
  by_cases hc : s.flag &&& NOTIFIABLE ≠ 0
  · rw [notify_one_pos s hc]
    exact Inv_notify s Notify.One h
  · rw [notify_one_neg s hc]
    exact h

theorem Inv_notify_all (s : WakerSet) (h : Inv s.inner) :
    Inv s.notify_all.state.inner := by
  by_cases hc : s.flag &&& NOTIFIABLE ≠ 0
  · rw [notify_all_pos s hc]
    exact Inv_notify s Notify.All h
  · rw [notify_all_neg s hc]
    exact h

theorem cancel_shape (s : WakerSet) (k : Nat) :
    ∃ i, (s.cancel k).state = unlockPublish i := by
  rcases hk : s.inner.entries.slots[k]? with _ | (_ | (_ | w))
  · have hrem := Slab.remove_oob s.inner.entries k hk
    rcases hfl : firstLive s.inner.entries.slots with _ | w
    · exact ⟨_, by rw [cancel_scan_none s k _ hrem hfl]⟩
    · exact ⟨_, by rw [cancel_scan_found s k _ w hrem hfl]⟩
  · have hrem := Slab.remove_vacant s.inner.entries k hk
    rcases hfl : firstLive s.inner.entries.slots with _ | w
    · exact ⟨_, by rw [cancel_scan_none s k _ hrem hfl]⟩
    · exact ⟨_, by rw [cancel_scan_found s k _ w hrem hfl]⟩
  · have hrem := Slab.remove_taken s.inner.entries k hk
    rcases hfl : firstLive (s.inner.entries.slots.set k none) with _ | w
    · exact ⟨_, by rw [cancel_scan_none s k _ hrem hfl]⟩
    · exact ⟨_, by rw [cancel_scan_found s k _ w hrem hfl]⟩
  · exact ⟨_, by rw [cancel_live s k w hk]⟩

/-- Every mutating path releases the lock through `unlockPublish`; the
fast-path rejections leave the state untouched. -/
theorem step_shape (s : WakerSet) (op : Op) :
    step s op = s ∨ ∃ i, step s op = unlockPublish i := by
  cases op with
  | insert w => exact Or.inr ⟨_, insert_state s w⟩
  | remove k =>
    rcases hk : s.inner.entries.slots[k]? with _ | (_ | (_ | w))
    · exact Or.inr ⟨_, removeOp_oob s k hk⟩
    · exact Or.inr ⟨_, removeOp_vacant s k hk⟩
    · exact Or.inr ⟨_, removeOp_taken s k hk⟩
    · exact Or.inr ⟨_, removeOp_live s k w hk⟩
  | cancel k =>
    obtain ⟨i, hi⟩ := cancel_shape s k
    exact Or.inr ⟨i, hi⟩
  | notifyAny =>
    by_cases hc : s.flag &&& NOTIFIED = 0 ∧ s.flag &&& NOTIFIABLE ≠ 0
    · exact Or.inr ⟨_, by show s.notify_any.state = _; rw [notify_any_pos s hc, notify_state]⟩
    · exact Or.inl (by show s.notify_any.state = s; rw [notify_any_neg s hc])
  | notifyOne =>
    by_cases hc : s.flag &&& NOTIFIABLE ≠ 0
    · exact Or.inr ⟨_, by show s.notify_one.state = _; rw [notify_one_pos s hc, notify_state]⟩
    · exact Or.inl (by show s.notify_one.state = s; rw [notify_one_neg s hc])
  | notifyAll =>
    by_cases hc : s.flag &&& NOTIFIABLE ≠ 0
    · exact Or.inr ⟨_, by show s.notify_all.state = _; rw [notify_all_pos s hc, notify_state]⟩
    · exact Or.inl (by show s.notify_all.state = s; rw [notify_all_neg s hc])

theorem step_preserves (s : WakerSet) (op : Op) (h : Inv s.inner ∧ TagOk s) :
    Inv (step s op).inner ∧ TagOk (step s op) := by
  have hI : Inv (step s op).inner := by
    cases op with
    | insert w => exact Inv_insert s w h.1
    | remove k => exact Inv_remove s k h.1
    | cancel k => exact Inv_cancel s k h.1
    | notifyAny => exact Inv_notify_any s h.1
    | notifyOne => exact Inv_notify_one s h.1
    | notifyAll => exact Inv_notify_all s h.1
  refine ⟨hI, ?_⟩
  rcases step_shape s op with hs | ⟨i, hs⟩
  · rw [hs]; exact h.2
  · rw [hs]; exact TagOk_unlockPublish i

theorem foldl_invariants (ops : List Op) (s : WakerSet)
    (h : Inv s.inner ∧ TagOk s) :
    Inv (ops.foldl step s).inner ∧ TagOk (ops.foldl step s) := by
  induction ops generalizing s with
  | nil => exact h
  | cons op ops ih => exact ih (step s op) (step_preserves s op h)

theorem run_invariants (ops : List Op) :
    Inv (run ops).inner ∧ TagOk (run ops) :=
  foldl_invariants ops WakerSet.new ⟨rfl, rfl⟩

/-! ### Further helper lemmas -/

theorem liveWakers_length (l : List Slot) :
    (liveWakers l).length = countLive l := by
  induction l with
  | nil => rfl
  | cons a l ih => rcases a with _ | (_ | w) <;> simp [ih]

theorem liveWakers_eq_nil_iff (l : List Slot) :
    liveWakers l = [] ↔ countLive l = 0 := by
  rw [← liveWakers_length, List.length_eq_zero]

theorem firstLive_set_taken (l : List Slot) (k : Nat)
    (h : l[k]? = some (some none)) :
    firstLive (l.set k none) = firstLive l := by
  induction l generalizing k with
  | nil => simp at h
  | cons a l ih =>
    cases k with
    | zero =>
      simp at h
      subst h
      simp
    | succ k =>
      simp at h
      rcases a with _ | (_ | v) <;> simp [List.set, ih k h]

theorem firstLive_isSome_of_pos (l : List Slot) (h : 0 < countLive l) :
    ∃ w, firstLive l = some w := by
  rcases hf : firstLive l with _ | w
  · rw [firstLive_eq_none_iff] at hf
    omega
  · exact ⟨w, rfl⟩

theorem insert_key (s : WakerSet) (w : Waker) :
    (s.insert w).2 = (s.inner.entries.insert (some w)).2 := rfl

/-! ### Once-lock lemmas -/

theorem ostep_lt_four (l : OnceRawLock) (h : l.tagBits < 4) (op : OnceOp) :
    (ostep l op).tagBits < 4 := by
  cases op with
  | markDone =>
    show l.tagBits ||| DONE_BIT < 4
    unfold DONE_BIT
    interval_cases h2 : l.tagBits <;> decide
  | poison =>
    show l.tagBits ||| POISON_BIT < 4
    unfold POISON_BIT
    interval_cases h2 : l.tagBits <;> decide

theorem ostep_poison_sticky (l : OnceRawLock) (h : l.tagBits < 4)
    (hp : l.tagBits &&& POISON_BIT ≠ 0) (op : OnceOp) :
    (ostep l op).tagBits &&& POISON_BIT ≠ 0 := by
  cases op with
  | markDone =>
    show (l.tagBits ||| DONE_BIT) &&& POISON_BIT ≠ 0
    unfold DONE_BIT POISON_BIT at *
    revert hp
    interval_cases h2 : l.tagBits <;> decide
  | poison =>
    show (l.tagBits ||| POISON_BIT) &&& POISON_BIT ≠ 0
    unfold POISON_BIT at *
    revert hp
    interval_cases h2 : l.tagBits <;> decide

theorem orunFrom_poison_sticky (ops : List OnceOp) (l : OnceRawLock)
    (h : l.tagBits < 4) (hp : l.tagBits &&& POISON_BIT ≠ 0) :
    (orunFrom l ops).tagBits &&& POISON_BIT ≠ 0 ∧
    (orunFrom l ops).tagBits < 4 := by
  induction ops generalizing l with
  | nil => exact ⟨hp, h⟩
  | cons op ops ih =>
    exact ih (ostep l op) (ostep_lt_four l h op) (ostep_poison_sticky l h hp op)

/-! ### Mutex lemmas -/

/-- The guard-count invariant of the mutex model: the number of live
guards is one when the lock is held and zero otherwise. -/
def MInv (s : MutexState) : Prop := s.guards = if s.locked then 1 else 0

theorem mstep_MInv (s : MutexState) (op : MOp) (h : MInv s) :
    MInv (mstep s op) := by
  cases op with
  | lock =>
    by_cases hl : s.locked <;> simp [MInv, mstep, mlock, hl] at h ⊢ <;> omega
  | tryLock =>
    by_cases hl : s.locked <;> simp [MInv, mstep, mtry_lock, hl] at h ⊢ <;> omega
  | dropGuard =>
    by_cases hg : s.guards = 0
    · simp [MInv, mstep, mdrop, hg] at h ⊢
      by_cases hl : s.locked <;> simp [hl] at h ⊢ <;> omega
    · by_cases hl : s.locked <;> simp [MInv, mstep, mdrop, hg, hl] at h ⊢ <;> omega

theorem mrun_MInv (ops : List MOp) : MInv (mrun ops) := by
  unfold mrun
  have hbase : MInv MutexState.init := rfl
  generalize MutexState.init = s at hbase ⊢
  induction ops generalizing s with
  | nil => exact hbase
  | cons op ops ih => exact ih (mstep s op) (mstep_MInv s op hbase)

/-! ### Result lemmas for the notify operations -/

/-- Under the invariants, `notify_any` either fast-rejects with the
state untouched (exactly when some entry is already notified or none is
notifiable), or wakes precisely the first live entry. -/
theorem notify_any_cases (s : WakerSet) (hI : Inv s.inner) (hT : TagOk s) :
    (s.notify_any = ⟨s, false, []⟩ ∧
      ¬(countTaken s.inner.entries.slots = 0 ∧
        0 < countLive s.inner.entries.slots)) ∨
    (∃ w, firstLive s.inner.entries.slots = some w ∧
      s.notify_any.ret = true ∧
      s.notify_any.woken = [w] ∧
      countTaken s.notify_any.state.inner.entries.slots =
        countTaken s.inner.entries.slots + 1 ∧
      countLive s.notify_any.state.inner.entries.slots + 1 =
        countLive s.inner.entries.slots ∧
      s.notify_any.state.inner.notifiable + 1 = s.inner.notifiable ∧
      Inv s.notify_any.state.inner ∧
      TagOk s.notify_any.state ∧
      countTaken s.inner.entries.slots = 0 ∧
      0 < countLive s.inner.entries.slots) := by
  by_cases hc : s.flag &&& NOTIFIED = 0 ∧ s.flag &&& NOTIFIABLE ≠ 0
  · right
    have hta : countTaken s.inner.entries.slots = 0 :=
      (flag_NOTIFIED_iff s hI hT).mp hc.1
    have hli : 0 < countLive s.inner.entries.slots :=
      (flag_NOTIFIABLE_iff s hI hT).mp hc.2
    obtain ⟨w, hw⟩ := firstLive_isSome_of_pos _ hli
    have hfo : firstOcc s.inner.entries.slots = some (some w) := by
      rw [firstOcc_of_no_taken _ hta, hw]
      rfl
    obtain ⟨h1, h2, h3, h4, h5, h6⟩ :=
      notifyLoop_any_live s.inner.entries.slots s.inner.notifiable w hfo
    have heq := notify_any_pos s hc
    refine ⟨w, hw, ?_, ?_, ?_, ?_, ?_, ?_, ?_, hta, hli⟩
    · rw [heq, notify_state]; exact h3
    · rw [heq, notify_state]; exact h1
    · rw [heq, notify_state]; simpa using h5
    · rw [heq, notify_state]; simpa using h4
    · rw [heq, notify_state]
      simp only [unlockPublish_inner]
      unfold Inv at hI
      omega
    · rw [heq, notify_state]
      unfold Inv
      simp only [unlockPublish_inner]
      unfold Inv at hI
      omega
    · rw [heq, notify_state]
      exact TagOk_unlockPublish _
  · left
    refine ⟨notify_any_neg s hc, ?_⟩
    rw [← flag_NOTIFIED_iff s hI hT, ← flag_NOTIFIABLE_iff s hI hT]
    exact hc

/-- Once the `NOTIFIED` bit is published, every further `notify_any`
fast-rejects and wakes nothing. -/
theorem totalAnyWoken_notified (s : WakerSet) (h : s.flag &&& NOTIFIED ≠ 0)
    (n : Nat) : totalAnyWoken s n = 0 := by
  induction n with
  | zero => rfl
  | succ n ih =>
    have hneg : s.notify_any = ⟨s, false, []⟩ :=
      notify_any_neg s (fun hc => h hc.1)
    rw [totalAnyWoken, hneg]
    simpa using ih

/-- Under the invariants, any number of consecutive `notify_any` calls
wakes at most one entry in total. -/
theorem totalAnyWoken_le_one (n : Nat) :
    ∀ s : WakerSet, Inv s.inner → TagOk s → totalAnyWoken s n ≤ 1 := by
  induction n with
  | zero =>
    intro s _ _
    simp [totalAnyWoken]
  | succ n ih =>
    intro s hI hT
    rcases notify_any_cases s hI hT with ⟨heq, _⟩ |
      ⟨w, _, _, hwok, hTak, _, _, hI2, hT2, _, _⟩
    · rw [totalAnyWoken, heq]
      simpa using ih s hI hT
    · rw [totalAnyWoken, hwok]
      have hNotif : s.notify_any.state.flag &&& NOTIFIED ≠ 0 := by
        rw [Ne, flag_NOTIFIED_iff _ hI2 hT2]
        omega
      rw [totalAnyWoken_notified _ hNotif n]
      simp

/-- Under the invariants, `notify_all` wakes exactly the live wakers in
slab iteration order, returns whether there was any, and leaves
`notifiable` at zero with the `NOTIFIABLE` bit clear. -/
theorem notify_all_res (s : WakerSet) (hI : Inv s.inner) (hT : TagOk s) :
    s.notify_all.woken = liveWakers s.inner.entries.slots ∧
    (s.notify_all.ret = true ↔ 0 < countLive s.inner.entries.slots) ∧
    s.notify_all.state.inner.notifiable = 0 ∧
    s.notify_all.state.tag &&& NOTIFIABLE = 0 := by
  by_cases hc : s.flag &&& NOTIFIABLE ≠ 0
  · have hli : 0 < countLive s.inner.entries.slots :=
      (flag_NOTIFIABLE_iff s hI hT).mp hc
    obtain ⟨h1, h2, h3, h4, h5, h6⟩ :=
      notifyLoop_all_spec s.inner.entries.slots s.inner.notifiable
    have heq := notify_all_pos s hc
    have hnf : (notifyLoop Notify.All s.inner.entries.slots
        s.inner.notifiable).notifiable = 0 := by
      unfold Inv at hI
      omega
    refine ⟨?_, ?_, ?_, ?_⟩
    · rw [heq, notify_state]; exact h1
    · rw [heq, notify_state]
      simp only [h6]
      simpa using hli
    · rw [heq, notify_state]
      simpa using hnf
    · rw [heq, notify_state]
      have hiff := publishTag_and_NOTIFIABLE
        ⟨⟨(notifyLoop Notify.All s.inner.entries.slots s.inner.notifiable).slots⟩,
          (notifyLoop Notify.All s.inner.entries.slots s.inner.notifiable).notifiable⟩
      simp only [unlockPublish_tag]
      simp only [hnf] at hiff ⊢
      omega
  · have hli : ¬0 < countLive s.inner.entries.slots := by
      rw [← flag_NOTIFIABLE_iff s hI hT]
      exact hc
    have heq := notify_all_neg s hc
    have hnil : liveWakers s.inner.entries.slots = [] := by
      rw [liveWakers_eq_nil_iff]
      omega
    refine ⟨?_, ?_, ?_, ?_⟩
    · rw [heq, hnil]
    · rw [heq]
      simpa using hli
    · rw [heq]
      show s.inner.notifiable = 0
      unfold Inv at hI
      omega
    · rw [heq]
      show s.tag &&& NOTIFIABLE = 0
      rw [not_not] at hc
      exact hc

/-- Under the invariants, whenever some entry still holds a live waker,
`notify_one` wakes exactly the first live entry and decrements
`notifiable` by one, regardless of the `NOTIFIED` bit. -/
theorem notify_one_res (s : WakerSet) (hI : Inv s.inner) (hT : TagOk s)
    (hli : 0 < countLive s.inner.entries.slots) :
    ∃ w, firstLive s.inner.entries.slots = some w ∧
      s.notify_one.ret = true ∧
      s.notify_one.woken = [w] ∧
      s.notify_one.state.inner.notifiable + 1 = s.inner.notifiable ∧
      countLive s.notify_one.state.inner.entries.slots + 1 =
        countLive s.inner.entries.slots := by
  have hc : s.flag &&& NOTIFIABLE ≠ 0 := (flag_NOTIFIABLE_iff s hI hT).mpr hli
  obtain ⟨w, hw⟩ := firstLive_isSome_of_pos _ hli
  obtain ⟨h1, h2, h3, h4, h5, h6⟩ :=
    notifyLoop_one_some s.inner.entries.slots s.inner.notifiable w hw
  have heq := notify_one_pos s hc
  refine ⟨w, hw, ?_, ?_, ?_, ?_⟩
  · rw [heq, notify_state]; exact h3
  · rw [heq, notify_state]; exact h1
  · rw [heq, notify_state]
    simp only [unlockPublish_inner]
    unfold Inv at hI
    omega
  · rw [heq, notify_state]
    simpa using h4

/-! ### The claims -/

/-- C1: for every sequence of WakerSet operations executed sequentially
from a fresh WakerSet, after each operation `notifiable` equals the
number of slab entries whose stored waker is `some`, and
`entries.len() - notifiable` equals the number of
notified-but-not-yet-removed entries. -/
theorem C1_notifiable_invariant (ops : List Op) :
    (run ops).inner.notifiable = countLive (run ops).inner.entries.slots ∧
    (run ops).inner.entries.len - (run ops).inner.notifiable =
      countTaken (run ops).inner.entries.slots :=
  ⟨(run_invariants ops).1, Inv_len_sub _ (run_invariants ops).1⟩

/-- C2: after every operation the published tag is exactly the one
computed by `Lock::drop` from the authoritative counts — `NOTIFIED` set
iff `entries.len() - notifiable > 0` and `NOTIFIABLE` set iff
`notifiable > 0` — so in sequential execution the `notify_*` fast paths
read a tag reflecting the `Inner` counts left by the previous
operation. -/
theorem C2_tag_reflects_counts (ops : List Op) :
    (run ops).tag = publishTag (run ops).inner ∧
    ((run ops).tag &&& NOTIFIED ≠ 0 ↔
      0 < (run ops).inner.entries.len - (run ops).inner.notifiable) ∧
    ((run ops).tag &&& NOTIFIABLE ≠ 0 ↔ 0 < (run ops).inner.notifiable) := by
  obtain ⟨hI, hT⟩ := run_invariants ops
  refine ⟨hT, ?_, ?_⟩
  · rw [hT]
    have h := publishTag_and_NOTIFIED (run ops).inner
    omega
  · rw [hT]
    have h := publishTag_and_NOTIFIABLE (run ops).inner
    omega

/-- C3: `notify_any` wakes at most one entry, and it wakes one exactly
when no entry is in the notified state and a live entry exists,
returning `false` otherwise; any number of consecutive `notify_any`
calls with no intervening operation wakes at most one entry in total;
in particular, after inserting a single handle, two `notify_any` calls
invoke that waker exactly once and the second call returns `false`. -/
theorem C3_notify_any (ops : List Op) (n : Nat) (w : Waker) :
    (run ops).notify_any.woken.length ≤ 1 ∧
    ((run ops).notify_any.ret = true ↔
      countTaken (run ops).inner.entries.slots = 0 ∧
      0 < countLive (run ops).inner.entries.slots) ∧
    totalAnyWoken (run ops) n ≤ 1 ∧
    (WakerSet.new.insert w).1.notify_any.woken = [w] ∧
    (WakerSet.new.insert w).1.notify_any.state.notify_any.ret = false ∧
    (WakerSet.new.insert w).1.notify_any.state.notify_any.woken = [] := by
  obtain ⟨hI, hT⟩ := run_invariants ops
  refine ⟨?_, ?_, totalAnyWoken_le_one n (run ops) hI hT, ?_, ?_, ?_⟩
  · rcases notify_any_cases (run ops) hI hT with ⟨heq, _⟩ |
      ⟨w2, _, _, hwok, _⟩
    · rw [heq]
      simp
    · rw [hwok]
      simp
  · rcases notify_any_cases (run ops) hI hT with ⟨heq, hn⟩ |
      ⟨w2, _, hret, _, _, _, _, _, _, hta, hli⟩
    · rw [heq]
      simpa using hn
    · rw [hret]
      simp [hta, hli]
  · simp [WakerSet.insert, WakerSet.new, Slab.insert, Slab.new, findVacant,
      unlockPublish, publishTag, Slab.len, countOcc, WakerSet.notify_any,
      WakerSet.flag, WakerSet.notify, notifyLoop, NOTIFIED, NOTIFIABLE]
  · simp [WakerSet.insert, WakerSet.new, Slab.insert, Slab.new, findVacant,
      unlockPublish, publishTag, Slab.len, countOcc, WakerSet.notify_any,
      WakerSet.flag, WakerSet.notify, notifyLoop, NOTIFIED, NOTIFIABLE]
  · simp [WakerSet.insert, WakerSet.new, Slab.insert, Slab.new, findVacant,
      unlockPublish, publishTag, Slab.len, countOcc, WakerSet.notify_any,
      WakerSet.flag, WakerSet.notify, notifyLoop, NOTIFIED, NOTIFIABLE]

/-- C5: `notify_all` wakes every entry that currently holds a live
waker (in slab iteration order) and returns `true` iff at least one was
woken; when the `NOTIFIABLE` bit is clear it returns `false` without
locking, leaving the state untouched; afterwards `notifiable` is zero
and the published `NOTIFIABLE` bit is clear. -/
theorem C5_notify_all (ops : List Op) :
    (run ops).notify_all.woken = liveWakers (run ops).inner.entries.slots ∧
    ((run ops).notify_all.ret = true ↔
      0 < countLive (run ops).inner.entries.slots) ∧
    ((run ops).flag &&& NOTIFIABLE = 0 →
      (run ops).notify_all = ⟨run ops, false, []⟩) ∧
    (run ops).notify_all.state.inner.notifiable = 0 ∧
    (run ops).notify_all.state.tag &&& NOTIFIABLE = 0 := by
  obtain ⟨hI, hT⟩ := run_invariants ops
  obtain ⟨h1, h2, h3, h4⟩ := notify_all_res (run ops) hI hT
  exact ⟨h1, h2, fun hc => notify_all_neg (run ops) (by omega), h3, h4⟩

/-- C6: whenever at least one entry holds a live waker, `notify_one`
wakes exactly one entry — the first in slab iteration order with a live
waker — decrements `notifiable` by exactly one, and returns `true`,
regardless of the `NOTIFIED` state of other entries; with three freshly
inserted handles one call wakes exactly the first one and `notifiable`
drops from 3 to 2. -/
theorem C6_notify_one (ops : List Op) (w1 w2 w3 : Waker)
    (hli : 0 < countLive (run ops).inner.entries.slots) :
    (run ops).notify_one.ret = true ∧
    (run ops).notify_one.woken =
      (firstLive (run ops).inner.entries.slots).toList ∧
    (run ops).notify_one.state.inner.notifiable + 1 =
      (run ops).inner.notifiable ∧
    (((WakerSet.new.insert w1).1.insert w2).1.insert w3).1.inner.notifiable
      = 3 ∧
    (((WakerSet.new.insert w1).1.insert w2).1.insert
      w3).1.notify_one.woken = [w1] ∧
    (((WakerSet.new.insert w1).1.insert w2).1.insert
      w3).1.notify_one.state.inner.notifiable = 2 := by
  obtain ⟨hI, hT⟩ := run_invariants ops
  obtain ⟨w, hw, h1, h2, h3, _⟩ := notify_one_res (run ops) hI hT hli
  refine ⟨h1, ?_, h3, rfl, ?_, ?_⟩
  · rw [h2, hw]
    rfl
  · simp [WakerSet.insert, WakerSet.new, Slab.insert, Slab.new, findVacant,
      unlockPublish, publishTag, Slab.len, countOcc, WakerSet.notify_one,
      WakerSet.flag, WakerSet.notify, notifyLoop, NOTIFIED, NOTIFIABLE]
  · simp [WakerSet.insert, WakerSet.new, Slab.insert, Slab.new, findVacant,
      unlockPublish, publishTag, Slab.len, countOcc, WakerSet.notify_one,
      WakerSet.flag, WakerSet.notify, notifyLoop, NOTIFIED, NOTIFIABLE]

/-- Witness for C6 at a concrete reachable state. -/
theorem C6_notify_one_witness :
    0 < countLive (run [Op.insert 5]).inner.entries.slots ∧
    (run [Op.insert 5]).notify_one.ret = true :=
  ⟨by decide, (C6_notify_one [Op.insert 5] 1 2 3 (by decide)).1⟩

/-- C4: `cancel(key)` on an entry still holding its live waker removes
it, decrements `notifiable`, and returns `false`; on an entry whose
waker was already taken it instead wakes the first remaining entry with
a live waker in slab iteration order, decrements `notifiable`, and
returns `true` — returning `false` exactly when no other entry with a
live waker existed. -/
theorem C4_cancel (s : WakerSet) (k : Nat) (hI : Inv s.inner) :
    (∀ w, s.inner.entries.slots[k]? = some (some (some w)) →
      (s.cancel k).ret = false ∧
      (s.cancel k).woken = [] ∧
      (s.cancel k).state.inner.notifiable + 1 = s.inner.notifiable ∧
      (s.cancel k).state.inner.entries.len + 1 = s.inner.entries.len) ∧
    (s.inner.entries.slots[k]? = some (some none) →
      ((s.cancel k).ret = true ↔ 0 < countLive s.inner.entries.slots) ∧
      (∀ w, firstLive s.inner.entries.slots = some w →
        (s.cancel k).ret = true ∧
        (s.cancel k).woken = [w] ∧
        (s.cancel k).state.inner.notifiable + 1 = s.inner.notifiable) ∧
      (firstLive s.inner.entries.slots = none →
        (s.cancel k).ret = false ∧
        (s.cancel k).woken = [] ∧
        (s.cancel k).state.inner.notifiable = s.inner.notifiable)) := by
  unfold Inv at hI
  constructor
  · intro w hk
    have hcl := countLive_set_none_of_live _ _ _ hk
    have hco := countOcc_set_none_of_occ _ _ (some w) hk
    rw [cancel_live s k w hk]
    refine ⟨rfl, rfl, ?_, ?_⟩
    · simp only [unlockPublish_inner]
      omega
    · unfold Slab.len
      simp only [unlockPublish_inner]
      omega
  · intro hk
    have hrem := Slab.remove_taken s.inner.entries k hk
    have hfls := firstLive_set_taken _ k hk
    rcases hfl : firstLive s.inner.entries.slots with _ | w
    · have h0 : countLive s.inner.entries.slots = 0 :=
        (firstLive_eq_none_iff _).mp hfl
      rw [cancel_scan_none s k _ hrem (hfls.trans hfl)]
      refine ⟨by simp [h0], ?_, fun _ => ⟨rfl, rfl, rfl⟩⟩
      intro w hw
      simp at hw
    · have hpos : 0 < countLive s.inner.entries.slots := by
        rcases Nat.eq_zero_or_pos (countLive s.inner.entries.slots) with h0 | hp
        · rw [← firstLive_eq_none_iff] at h0
          rw [h0] at hfl
          simp at hfl
        · exact hp
      rw [cancel_scan_found s k _ w hrem (hfls.trans hfl)]
      refine ⟨by simp [hpos], ?_, ?_⟩
      · intro w2 hw2
        rw [Option.some.injEq] at hw2
        subst hw2
        refine ⟨rfl, rfl, ?_⟩
        simp only [unlockPublish_inner]
        omega
      · intro hw2
        simp at hw2

/-- Witness for C4: two entries, the first already notified; cancelling
the second-keyed... cancelling the notified-entry key transfers the
notification. -/
theorem C4_cancel_witness :
    Inv (⟨⟨⟨[some (some 5), some none]⟩, 1⟩, 0⟩ : WakerSet).inner ∧
    ((⟨⟨⟨[some (some 5), some none]⟩, 1⟩, 0⟩ : WakerSet).cancel 1).ret = true := by
  refine ⟨rfl, ?_⟩
  have h := C4_cancel ⟨⟨⟨[some (some 5), some none]⟩, 1⟩, 0⟩ 1 rfl
  exact ((h.2 rfl).2.1 5 rfl).1

/-- C7: in the interleaved mutex model, at most one exclusive guard
exists at any instant; while a guard is alive `try_lock` fails; and
dropping the live guard releases the lock, returning the mutex to its
initial state.  Guards are only created by `lock` and successful
`try_lock` steps (the step function of the model). -/
theorem C7_mutex_exclusion (ops : List MOp) :
    (mrun ops).guards ≤ 1 ∧
    (0 < (mrun ops).guards → (mtry_lock (mrun ops)).2 = false) ∧
    ((mrun ops).guards = 1 → mdrop (mrun ops) = MutexState.init) := by
  have h := mrun_MInv ops
  unfold MInv at h
  by_cases hl : (mrun ops).locked
  · rw [if_pos hl] at h
    refine ⟨by omega, fun _ => ?_, fun _ => ?_⟩
    · simp [mtry_lock, hl]
    · simp [mdrop, h, MutexState.init]
  · rw [if_neg hl] at h
    exact ⟨by omega, fun hg => by omega, fun hg => by omega⟩

/-- Witness for C7: after one `lock` step a guard is live, `try_lock`
fails, and dropping the guard restores the initial state. -/
theorem C7_mutex_exclusion_witness :
    0 < (mrun [MOp.lock]).guards ∧
    (mtry_lock (mrun [MOp.lock])).2 = false ∧
    mdrop (mrun [MOp.lock]) = MutexState.init :=
  ⟨by decide, (C7_mutex_exclusion [MOp.lock]).2.1 (by decide),
    (C7_mutex_exclusion [MOp.lock]).2.2 (by decide)⟩

/-- C8: `insert` followed immediately by `remove` of the returned key
restores both `notifiable` and the slab's entry count to their
pre-insert values, for every `WakerSet` state. -/
theorem C8_insert_remove_roundtrip (s : WakerSet) (w : Waker) :
    ((s.insert w).1.remove (s.insert w).2).inner.notifiable =
      s.inner.notifiable ∧
    ((s.insert w).1.remove (s.insert w).2).inner.entries.len =
      s.inner.entries.len := by
  obtain ⟨h1, h2, h3, h4⟩ := Slab.insert_spec s.inner.entries w
  rw [insert_state, insert_key]
  have hk : (unlockPublish ⟨(s.inner.entries.insert (some w)).1,
      s.inner.notifiable + 1⟩).inner.entries.slots[
        (s.inner.entries.insert (some w)).2]? = some (some (some w)) := by
    simpa using h4
  rw [removeOp_live _ _ w hk]
  have h5 := countOcc_set_none_of_occ (s.inner.entries.insert (some w)).1.slots
    (s.inner.entries.insert (some w)).2 (some w) (by simpa using h4)
  constructor
  · simp
  · unfold Slab.len
    simp only [unlockPublish_inner]
    omega

/-- C9: for the once lock, `is_done` reads the `DONE_BIT`; `mark_done`
sets it without touching the `POISON_BIT`; `get_and_mark_poisoned` sets
the `POISON_BIT` without clearing the `DONE_BIT` and returns whether
the `POISON_BIT` was already set — `false` on the first call from the
untagged state, `true` on every subsequent call. -/
theorem C9_once_finish (l : OnceRawLock) (h : l.tagBits < 4)
    (ops : List OnceOp) :
    (l.is_done = true ↔ l.tag &&& DONE_BIT ≠ 0) ∧
    l.mark_done.is_done = true ∧
    l.mark_done.tag &&& POISON_BIT = l.tag &&& POISON_BIT ∧
    l.get_and_mark_poisoned.1.tag &&& POISON_BIT ≠ 0 ∧
    l.get_and_mark_poisoned.1.tag &&& DONE_BIT = l.tag &&& DONE_BIT ∧
    (l.get_and_mark_poisoned.2 = true ↔ l.tag &&& POISON_BIT ≠ 0) ∧
    OnceRawLock.new.get_and_mark_poisoned.2 = false ∧
    (orunFrom l.get_and_mark_poisoned.1 ops).get_and_mark_poisoned.2
      = true := by
  obtain ⟨t⟩ := l
  refine ⟨?_, ?_, ?_, ?_, ?_, ?_, by decide, ?_⟩
  · interval_cases t <;> decide
  · interval_cases t <;> decide
  · interval_cases t <;> decide
  · interval_cases t <;> decide
  · interval_cases t <;> decide
  · interval_cases t <;> decide
  · have h4 : (OnceRawLock.get_and_mark_poisoned ⟨t⟩).1.tagBits < 4 := by
      show t ||| POISON_BIT < 4
      unfold POISON_BIT
      interval_cases t <;> decide
    have hp : (OnceRawLock.get_and_mark_poisoned ⟨t⟩).1.tagBits
        &&& POISON_BIT ≠ 0 := by
      show (t ||| POISON_BIT) &&& POISON_BIT ≠ 0
      unfold POISON_BIT
      interval_cases t <;> decide
    obtain ⟨hs, _⟩ := orunFrom_poison_sticky ops _ h4 hp
    show ((orunFrom (OnceRawLock.get_and_mark_poisoned ⟨t⟩).1
      ops).tagBits &&& POISON_BIT != 0) = true
    simpa using hs

/-- Witness for C9 at the untagged state. -/
theorem C9_once_finish_witness :
    (⟨0⟩ : OnceRawLock).tagBits < 4 ∧
    (orunFrom (⟨0⟩ : OnceRawLock).get_and_mark_poisoned.1
      [OnceOp.markDone]).get_and_mark_poisoned.2 = true :=
  ⟨by decide,
    (C9_once_finish ⟨0⟩ (by decide) [OnceOp.markDone]).2.2.2.2.2.2.2⟩

/-- C10: the private notify function with strategy `Any` stops at the
first occupied entry in slab iteration order: when that entry's waker
was already taken it wakes nothing, returns `false`, and leaves the
entries and `notifiable` unchanged, even when later entries still hold
live wakers. -/
theorem C10_notify_any_first_taken (s : WakerSet)
    (h : firstOcc s.inner.entries.slots = some none) :
    s.notify Notify.Any = ⟨unlockPublish s.inner, false, []⟩ := by
  rw [notify_state, notifyLoop_any_taken _ _ h]

/-- Witness for C10: the first occupied entry is taken while a later
entry holds a live waker; nothing is woken and the scan reports
`false`. -/
theorem C10_notify_any_first_taken_witness :
    firstOcc (⟨⟨⟨[some none, some (some 7)]⟩, 1⟩, 3⟩ :
      WakerSet).inner.entries.slots = some none ∧
    (⟨⟨⟨[some none, some (some 7)]⟩, 1⟩, 3⟩ : WakerSet).notify Notify.Any =
      ⟨unlockPublish ⟨⟨[some none, some (some 7)]⟩, 1⟩, false, []⟩ :=
  ⟨rfl, C10_notify_any_first_taken ⟨⟨⟨[some none, some (some 7)]⟩, 1⟩, 3⟩ rfl⟩

/-- Witness for C5's fast-path clause at the empty reachable state. -/
theorem C5_notify_all_witness :
    (run []).flag &&& NOTIFIABLE = 0 ∧
    (run []).notify_all = ⟨run [], false, []⟩ :=
  ⟨by decide, (C5_notify_all []).2.2.1 (by decide)⟩

end LockerModel
